import Mathlib

/-!
Verification of the dual-filter pose estimator of `hdl_localization`
(`src/include/hdl_localization/pose_estimator.hpp`), shallowly embedded over
exact rational arithmetic.  Machine floating point is idealised as `ℚ`; the
three Eigen primitives that involve square roots (vector norm, quaternion
normalisation, rotation-matrix-to-quaternion conversion) are taken as
abstract function parameters, universally quantified in every statement.
-/

namespace HdlLocalization

/-- Belief state of one `kkl::alg::UnscentedKalmanFilterX` instance: mean,
covariance, the currently set process-noise covariance, and the fixed
measurement-noise covariance, for state dimension `n` and measurement
dimension `k`. -/
structure UKF (n k : ℕ) where
  mean : Fin n → ℚ
  cov : Matrix (Fin n) (Fin n) ℚ
  processNoise : Matrix (Fin n) (Fin n) ℚ
  measurementNoise : Matrix (Fin k) (Fin k) ℚ

/-- Modelled from the spec: the generic recursive-estimator engine
`kkl/alg/unscented_kalman_filter.hpp` is not under `src/`.  Per the spec,
`predict(control)` propagates the mean through the configured motion model
(here the parameter `f`) and grows the covariance by the currently set
process-noise covariance; the sigma-point spread of the unscented transform
is abstracted into the motion-model parameter. -/
def ukfPredict {n m k : ℕ} (f : (Fin n → ℚ) → (Fin m → ℚ) → Fin n → ℚ)
    (u : UKF n k) (control : Fin m → ℚ) : UKF n k :=
  { u with mean := f u.mean control, cov := u.cov + u.processNoise }

/-- State of `hdl_localization::PoseEstimator`: timestamps (as rationals,
`ros::Time()` being the zero value), the cool-time duration, the base
inertial process-noise matrix, the always-present inertial filter, and the
lazily created odometry filter. -/
structure PoseEstimator where
  initStamp : ℚ
  prevStamp : ℚ
  lastCorrectionStamp : ℚ
  coolTimeDuration : ℚ
  processNoise : Matrix (Fin 16) (Fin 16) ℚ
  ukf : UKF 16 7
  odomUkf : Option (UKF 7 7)

/-- Base inertial process noise built in the constructor: the 16x16 identity
with rows 0-5 scaled by 1, rows 6-9 by 0.5, rows 10-15 by 1e-6. -/
def inertialProcessNoise : Matrix (Fin 16) (Fin 16) ℚ :=
  Matrix.of fun i j =>
    if i = j then (if i.1 < 6 then 1 else if i.1 < 10 then 1/2 else 1/1000000) else 0

/-- Inertial measurement noise built in the constructor: the 7x7 identity
with rows 0-2 scaled by 0.01 and rows 3-6 by 0.001. -/
def inertialMeasurementNoise : Matrix (Fin 7) (Fin 7) ℚ :=
  Matrix.of fun i j =>
    if i = j then (if i.1 < 3 then 1/100 else 1/1000) else 0

/-- Initial inertial mean: position in components 0-2, zero velocity in 3-5,
the quaternion (w,x,y,z) in 6-9, zero bias blocks in 10-15. -/
def initialMean (pos : Fin 3 → ℚ) (quat : Fin 4 → ℚ) : Fin 16 → ℚ :=
  fun i =>
    if h : i.1 < 3 then pos ⟨i.1, h⟩
    else if h2 : 6 ≤ i.1 ∧ i.1 < 10 then quat ⟨i.1 - 6, by omega⟩
    else 0

/-- The `PoseEstimator` constructor: records the construction stamp and the
cool-time duration, builds the noise matrices, and creates the inertial
filter with the given initial pose and covariance 0.01 times the identity.
The previous-prediction stamp starts at the zero time. -/
def poseEstimatorInit (stamp : ℚ) (pos : Fin 3 → ℚ) (quat : Fin 4 → ℚ)
    (coolTime : ℚ) : PoseEstimator :=
  { initStamp := stamp
    prevStamp := 0
    lastCorrectionStamp := 0
    coolTimeDuration := coolTime
    processNoise := inertialProcessNoise
    ukf :=
      { mean := initialMean pos quat
        cov := (1/100 : ℚ) • 1
        processNoise := inertialProcessNoise
        measurementNoise := inertialMeasurementNoise }
    odomUkf := none }

/-- The 6-dimensional inertial control: acceleration in components 0-2,
angular velocity in components 3-5. -/
def imuControl (acc gyro : Fin 3 → ℚ) : Fin 6 → ℚ :=
  fun i => if h : i.1 < 3 then acc ⟨i.1, h⟩ else gyro ⟨i.1 - 3, by omega⟩

/-- `PoseEstimator::predict`: inside the cool-time window, on the very first
call (zero previous stamp), or when the stamp equals the previous one, only
the previous-stamp bookkeeping happens; otherwise the elapsed time `dt` is
computed, the process noise of the inertial filter is set to `dt` times the
base matrix, and the filter predicts with the 6-dimensional control.  The
motion model `f` (from `pose_system.hpp`, not under `src/`) takes the state,
the control and `dt`. -/
def predict (f : (Fin 16 → ℚ) → (Fin 6 → ℚ) → ℚ → Fin 16 → ℚ)
    (e : PoseEstimator) (stamp : ℚ) (acc gyro : Fin 3 → ℚ) : PoseEstimator :=
  if stamp - e.initStamp < e.coolTimeDuration ∨ e.prevStamp = 0 ∨ e.prevStamp = stamp then
    { e with prevStamp := stamp }
  else
    let dt := stamp - e.prevStamp
    { e with
        prevStamp := stamp
        ukf := ukfPredict (fun st c => f st c dt)
          { e.ukf with processNoise := dt • e.processNoise } (imuControl acc gyro) }

/-- Seed of the odometry mean from the inertial mean, as in the first
`predict_odom` call: components 0-2 copy inertial mean components 0-2,
components 3-6 copy inertial mean components 6-9. -/
def odomSeed (m : Fin 16 → ℚ) : Fin 7 → ℚ :=
  fun i => if h : i.1 < 3 then m ⟨i.1, by omega⟩ else m ⟨i.1 + 3, by omega⟩

/-- The odometry filter as created on the first `predict_odom` call: mean
seeded from the inertial mean, covariance 0.01 times the identity, initial
process noise the identity, measurement noise 0.001 times the identity. -/
def odomInitialFilter (m : Fin 16 → ℚ) : UKF 7 7 :=
  { mean := odomSeed m
    cov := (1/100 : ℚ) • 1
    processNoise := 1
    measurementNoise := (1/1000 : ℚ) • 1 }

/-- Top-left 3x3 rotation block of a homogeneous 4x4 transform. -/
def rotBlock (d : Matrix (Fin 4) (Fin 4) ℚ) : Matrix (Fin 3) (Fin 3) ℚ :=
  Matrix.of fun i j => d ⟨i.1, by omega⟩ ⟨j.1, by omega⟩

/-- Translation column (block 3x1 at (0,3)) of a homogeneous 4x4 transform. -/
def transBlock (d : Matrix (Fin 4) (Fin 4) ℚ) : Fin 3 → ℚ :=
  fun i => d ⟨i.1, by omega⟩ 3

/-- The 7-dimensional odometry control: relative translation in components
0-2, relative rotation quaternion (w,x,y,z) in components 3-6. -/
def odomControl (q : Fin 4 → ℚ) (t : Fin 3 → ℚ) : Fin 7 → ℚ :=
  fun i => if h : i.1 < 3 then t ⟨i.1, h⟩ else q ⟨i.1 - 3, by omega⟩

/-- Adaptive odometry process noise for translation magnitude `tn` and
relative-quaternion scalar part `w`: the 7x7 identity with its top-left 3x3
corner overwritten by `tn` times the identity plus 1e-3 times the identity,
and its bottom-right 4x4 corner overwritten by `(1 - |w|)` times the
identity plus 1e-3 times the identity. -/
def odomProcessNoise (tn w : ℚ) : Matrix (Fin 7) (Fin 7) ℚ :=
  Matrix.of fun i j =>
    if h : i.1 < 3 ∧ j.1 < 3 then
      (tn • (1 : Matrix (Fin 3) (Fin 3) ℚ) + (1/1000 : ℚ) • 1) ⟨i.1, h.1⟩ ⟨j.1, h.2⟩
    else if h2 : 3 ≤ i.1 ∧ 3 ≤ j.1 then
      ((1 - |w|) • (1 : Matrix (Fin 4) (Fin 4) ℚ) + (1/1000 : ℚ) • 1)
        ⟨i.1 - 3, by omega⟩ ⟨j.1 - 3, by omega⟩
    else (1 : Matrix (Fin 7) (Fin 7) ℚ) i j

/-- `PoseEstimator::predict_odom`: creates the odometry filter on first use
(seeded from the inertial mean), extracts the relative translation and
rotation quaternion from the 4x4 delta, sets the adaptive process noise and
predicts with the 7-dimensional control.  The parameter `g` is the odometry
motion model (from `odom_system.hpp`, not under `src/`); `quatOfRot` models
the Eigen rotation-matrix-to-quaternion conversion (returning (w,x,y,z)
coefficients) and `vecNorm` the Eigen vector norm, both of which involve
square roots and are therefore kept abstract over `ℚ`. -/
def predictOdom (g : (Fin 7 → ℚ) → (Fin 7 → ℚ) → Fin 7 → ℚ)
    (quatOfRot : Matrix (Fin 3) (Fin 3) ℚ → Fin 4 → ℚ)
    (vecNorm : (Fin 3 → ℚ) → ℚ)
    (e : PoseEstimator) (odomDelta : Matrix (Fin 4) (Fin 4) ℚ) : PoseEstimator :=
  let u0 := match e.odomUkf with
    | some u => u
    | none => odomInitialFilter e.ukf.mean
  let q := quatOfRot (rotBlock odomDelta)
  let t := transBlock odomDelta
  { e with odomUkf := some (ukfPredict g
      { u0 with processNoise := odomProcessNoise (vecNorm t) (q 0) }
      (odomControl q t)) }

/-- `PoseEstimator::pos`: inertial mean components 0-2. -/
def posAcc (e : PoseEstimator) : Fin 3 → ℚ :=
  fun i => e.ukf.mean ⟨i.1, by omega⟩

/-- `PoseEstimator::vel`: inertial mean components 3-5. -/
def velAcc (e : PoseEstimator) : Fin 3 → ℚ :=
  fun i => e.ukf.mean ⟨i.1 + 3, by omega⟩

/-- Raw (not yet normalised) inertial orientation quaternion, inertial mean
components 6-9 in (w,x,y,z) order. -/
def rawQuat (e : PoseEstimator) : Fin 4 → ℚ :=
  fun i => e.ukf.mean ⟨i.1 + 6, by omega⟩

/-- Quaternion normalisation as performed by Eigen `normalized()`: each
coefficient divided by the norm, the norm function `nrm` being abstract
(its defining property is a hypothesis wherever it is needed). -/
def normalize4 (nrm : (Fin 4 → ℚ) → ℚ) (v : Fin 4 → ℚ) : Fin 4 → ℚ :=
  fun i => v i / nrm v

/-- `PoseEstimator::quat`: the normalised raw inertial quaternion. -/
def quatAcc (nrm : (Fin 4 → ℚ) → ℚ) (e : PoseEstimator) : Fin 4 → ℚ :=
  normalize4 nrm (rawQuat e)

/-- Rotation matrix of a (w,x,y,z) quaternion, the Eigen
`toRotationMatrix` formula. -/
def quatToRot (q : Fin 4 → ℚ) : Matrix (Fin 3) (Fin 3) ℚ :=
  let w := q 0
  let x := q 1
  let y := q 2
  let z := q 3
  !![1 - 2*(y^2 + z^2), 2*(x*y - z*w), 2*(x*z + y*w);
     2*(x*y + z*w), 1 - 2*(x^2 + z^2), 2*(y*z - x*w);
     2*(x*z - y*w), 2*(y*z + x*w), 1 - 2*(x^2 + y^2)]

/-- Homogeneous 4x4 transform from a rotation block and a translation. -/
def homogeneous (R : Matrix (Fin 3) (Fin 3) ℚ) (t : Fin 3 → ℚ) :
    Matrix (Fin 4) (Fin 4) ℚ :=
  Matrix.of fun i j =>
    if h : i.1 < 3 then
      (if h2 : j.1 < 3 then R ⟨i.1, h⟩ ⟨j.1, h2⟩ else t ⟨i.1, h⟩)
    else (if j.1 < 3 then 0 else 1)

/-- `PoseEstimator::matrix`: homogeneous transform of the inertial pose. -/
def matrixAcc (nrm : (Fin 4 → ℚ) → ℚ) (e : PoseEstimator) :
    Matrix (Fin 4) (Fin 4) ℚ :=
  homogeneous (quatToRot (quatAcc nrm e)) (posAcc e)

/-- Position part of an odometry filter state: mean components 0-2. -/
def ukfOdomPos (u : UKF 7 7) : Fin 3 → ℚ :=
  fun i => u.mean ⟨i.1, by omega⟩

/-- Raw orientation quaternion of an odometry filter state: mean components
3-6 in (w,x,y,z) order. -/
def ukfOdomRawQuat (u : UKF 7 7) : Fin 4 → ℚ :=
  fun i => u.mean ⟨i.1 + 3, by omega⟩

/-- `PoseEstimator::odom_pos`: defined exactly when the odometry filter
exists (the C++ accessor dereferences the filter pointer unconditionally). -/
def odomPosAcc (e : PoseEstimator) : Option (Fin 3 → ℚ) :=
  e.odomUkf.map ukfOdomPos

/-- `PoseEstimator::odom_quat`: defined exactly when the odometry filter
exists. -/
def odomQuatAcc (nrm : (Fin 4 → ℚ) → ℚ) (e : PoseEstimator) :
    Option (Fin 4 → ℚ) :=
  e.odomUkf.map fun u => normalize4 nrm (ukfOdomRawQuat u)

/-- `PoseEstimator::odom_matrix`: defined exactly when the odometry filter
exists. -/
def odomMatrixAcc (nrm : (Fin 4 → ℚ) → ℚ) (e : PoseEstimator) :
    Option (Matrix (Fin 4) (Fin 4) ℚ) :=
  e.odomUkf.map fun u =>
    homogeneous (quatToRot (normalize4 nrm (ukfOdomRawQuat u))) (ukfOdomPos u)

/-- Index map embedding the 7-dimensional pose block into the 16-dimensional
inertial state: 0-2 map to 0-2 (position), 3-6 map to 6-9 (quaternion). -/
def poseIdx (i : Fin 7) : Fin 16 :=
  if h : i.1 < 3 then ⟨i.1, by omega⟩ else ⟨i.1 + 3, by omega⟩

/-- The 7-dimensional inertial pose mean extracted in `correct`: mean
components 0-2 and 6-9. -/
def imuPoseMean (e : PoseEstimator) : Fin 7 → ℚ :=
  fun i => e.ukf.mean (poseIdx i)

/-- The 7x7 inertial pose covariance sub-block extracted in `correct`: the
four blocks of the 16x16 covariance at row and column indices 0-2 and 6-9. -/
def imuPoseCov (e : PoseEstimator) : Matrix (Fin 7) (Fin 7) ℚ :=
  Matrix.of fun i j => e.ukf.cov (poseIdx i) (poseIdx j)

/-- Exact matrix inverse as computed by Eigen `inverse()`, in computable
form: the reciprocal of the determinant times the adjugate.  It agrees with
the Mathlib nonsingular inverse on all inputs over `ℚ`. -/
def matInv {n : ℕ} (A : Matrix (Fin n) (Fin n) ℚ) : Matrix (Fin n) (Fin n) ℚ :=
  A.det⁻¹ • A.adjugate

/-- Fused covariance of `correct` in the dual-filter mode: the inverse of
the sum of the inverses of the inertial pose covariance sub-block and the
odometry covariance. -/
def fusedCov (e : PoseEstimator) (ou : UKF 7 7) : Matrix (Fin 7) (Fin 7) ℚ :=
  matInv (matInv (imuPoseCov e) + matInv ou.cov)

/-- Fused mean of `correct` in the dual-filter mode, exactly as the code
writes it: `fused_cov * inv_imu_cov * imu_mean + fused_cov * inv_odom_cov *
odom_mean`. -/
def fusedMean (e : PoseEstimator) (ou : UKF 7 7) : Fin 7 → ℚ :=
  Matrix.mulVec (fusedCov e ou * matInv (imuPoseCov e)) (imuPoseMean e)
    + Matrix.mulVec (fusedCov e ou * matInv ou.cov) ou.mean

/-- Initial-guess transform assembled in `correct`: the inertial pose matrix
in inertial-only mode; in dual-filter mode, the homogeneous transform of the
fused position and the normalised fused quaternion. -/
def initGuess (nrm : (Fin 4 → ℚ) → ℚ) (e : PoseEstimator) :
    Matrix (Fin 4) (Fin 4) ℚ :=
  match e.odomUkf with
  | none => matrixAcc nrm e
  | some ou =>
      homogeneous
        (quatToRot (normalize4 nrm (fun i => fusedMean e ou ⟨i.1 + 3, by omega⟩)))
        (fun i => fusedMean e ou ⟨i.1, by omega⟩)

/-- Dot product of two quaternions viewed as 4-vectors of coefficients. -/
def dot4 (a b : Fin 4 → ℚ) : ℚ := ∑ i, a i * b i

/-- Sign disambiguation in `correct`: the observed quaternion `q` is negated
exactly when its coefficient dot product with the current estimate `cur` is
negative. -/
def flipToMatch (cur q : Fin 4 → ℚ) : Fin 4 → ℚ :=
  if dot4 cur q < 0 then (fun i => - q i) else q

/-- The 7-dimensional observation assembled in `correct` from the refined
transform translation `p` and quaternion `q`: position in components 0-2 and
the sign-disambiguated quaternion (w,x,y,z) in components 3-6. -/
def scanObservation (nrm : (Fin 4 → ℚ) → ℚ) (e : PoseEstimator)
    (p : Fin 3 → ℚ) (q : Fin 4 → ℚ) : Fin 7 → ℚ :=
  let q2 := flipToMatch (quatAcc nrm e) q
  fun i => if h : i.1 < 3 then p ⟨i.1, h⟩ else q2 ⟨i.1 - 3, by omega⟩

/-- The computable Eigen-style inverse agrees with the Mathlib nonsingular
inverse over `ℚ` on every square matrix. -/
theorem matInv_eq_inv {n : ℕ} (A : Matrix (Fin n) (Fin n) ℚ) : matInv A = A⁻¹ := by
  rw [matInv, Matrix.inv_def, Ring.inverse_eq_inv']

/-- C1: in `correct`, when the odometry filter exists, the fused covariance
is the inverse of the sum of the inverses of the inertial pose covariance
sub-block and the odometry covariance (it inverts that sum on both sides,
and each summand inverts its covariance), and the fused mean, written by the
code as `fused_cov * inv_imu_cov * imu_mean + fused_cov * inv_odom_cov *
odom_mean`, equals the closed-form precision-weighted average
`fused_cov * (inv_imu_cov * imu_mean + inv_odom_cov * odom_mean)`, for every
pair of invertible covariances with invertible precision sum. -/
theorem fusion_information_form (e : PoseEstimator) (ou : UKF 7 7)
    (_hodom : e.odomUkf = some ou)
    (h1 : IsUnit (imuPoseCov e).det) (h2 : IsUnit ou.cov.det)
    (hs : IsUnit (matInv (imuPoseCov e) + matInv ou.cov).det) :
    fusedCov e ou * (matInv (imuPoseCov e) + matInv ou.cov) = 1 ∧
    (matInv (imuPoseCov e) + matInv ou.cov) * fusedCov e ou = 1 ∧
    matInv (imuPoseCov e) * imuPoseCov e = 1 ∧
    matInv ou.cov * ou.cov = 1 ∧
    fusedMean e ou = Matrix.mulVec (fusedCov e ou)
      (Matrix.mulVec (matInv (imuPoseCov e)) (imuPoseMean e)
        + Matrix.mulVec (matInv ou.cov) ou.mean) := by
  refine ⟨?_, ?_, ?_, ?_, ?_⟩
  · rw [fusedCov, matInv_eq_inv (matInv (imuPoseCov e) + matInv ou.cov)]
    exact Matrix.nonsing_inv_mul _ hs
  · rw [fusedCov, matInv_eq_inv (matInv (imuPoseCov e) + matInv ou.cov)]
    exact Matrix.mul_nonsing_inv _ hs
  · rw [matInv_eq_inv]
    exact Matrix.nonsing_inv_mul _ h1
  · rw [matInv_eq_inv]
    exact Matrix.nonsing_inv_mul _ h2
  · rw [fusedMean, Matrix.mulVec_add, Matrix.mulVec_mulVec, Matrix.mulVec_mulVec]

/-- Concrete odometry filter used by the fusion witness. -/
def fusionWitnessOdom : UKF 7 7 :=
  { mean := fun _ => 0
    cov := 1
    processNoise := 1
    measurementNoise := (1/1000 : ℚ) • 1 }

/-- Concrete dual-filter estimator state used by the fusion witness: the
inertial covariance is the identity, so the extracted pose sub-block is the
7x7 identity. -/
def fusionWitnessEstimator : PoseEstimator :=
  { poseEstimatorInit 0 (fun _ => 0) (fun i => if i.1 = 0 then 1 else 0) 1 with
      ukf :=
        { mean := fun _ => 0
          cov := 1
          processNoise := inertialProcessNoise
          measurementNoise := inertialMeasurementNoise }
      odomUkf := some fusionWitnessOdom }

/-- The extracted pose covariance sub-block of the fusion witness state is
the identity. -/
theorem fusionWitness_imuPoseCov : imuPoseCov fusionWitnessEstimator = 1 := by
  decide

/-- The Eigen-style inverse of the identity is the identity. -/
theorem matInv_one {n : ℕ} : matInv (1 : Matrix (Fin n) (Fin n) ℚ) = 1 := by
  simp [matInv]

/-- Witness for C1 at the concrete dual-filter state. -/
theorem fusion_information_form_witness :
    fusedCov fusionWitnessEstimator fusionWitnessOdom
        * (matInv (imuPoseCov fusionWitnessEstimator) + matInv fusionWitnessOdom.cov) = 1 ∧
    (matInv (imuPoseCov fusionWitnessEstimator) + matInv fusionWitnessOdom.cov)
        * fusedCov fusionWitnessEstimator fusionWitnessOdom = 1 ∧
    matInv (imuPoseCov fusionWitnessEstimator) * imuPoseCov fusionWitnessEstimator = 1 ∧
    matInv fusionWitnessOdom.cov * fusionWitnessOdom.cov = 1 ∧
    fusedMean fusionWitnessEstimator fusionWitnessOdom
      = Matrix.mulVec (fusedCov fusionWitnessEstimator fusionWitnessOdom)
          (Matrix.mulVec (matInv (imuPoseCov fusionWitnessEstimator))
              (imuPoseMean fusionWitnessEstimator)
            + Matrix.mulVec (matInv fusionWitnessOdom.cov) fusionWitnessOdom.mean) := by
  have hcov : (fusionWitnessOdom.cov : Matrix (Fin 7) (Fin 7) ℚ) = 1 := rfl
  have h1 : IsUnit (imuPoseCov fusionWitnessEstimator).det := by
    rw [fusionWitness_imuPoseCov, Matrix.det_one]
    exact isUnit_one
  have h2 : IsUnit (fusionWitnessOdom.cov).det := by
    rw [hcov, Matrix.det_one]
    exact isUnit_one
  have hs : IsUnit (matInv (imuPoseCov fusionWitnessEstimator)
      + matInv fusionWitnessOdom.cov).det := by
    rw [fusionWitness_imuPoseCov, hcov, matInv_one,
      ← two_smul ℚ (1 : Matrix (Fin 7) (Fin 7) ℚ), Matrix.det_smul]
    norm_num
  exact fusion_information_form fusionWitnessEstimator fusionWitnessOdom rfl h1 h2 hs

/-- Zero 3-vector used by concrete witness states. -/
def zeroVec3 : Fin 3 → ℚ := fun _ => 0

/-- Identity quaternion (w,x,y,z) used by concrete witness states. -/
def unitQuatW : Fin 4 → ℚ := fun i => if i.1 = 0 then 1 else 0

/-- Concrete inertial motion model used by witnesses and counterexamples:
the state is left unchanged (zero-motion propagation). -/
def idMotion16 : (Fin 16 → ℚ) → (Fin 6 → ℚ) → ℚ → Fin 16 → ℚ :=
  fun st _ _ => st

/-- Concrete estimator whose recorded previous prediction stamp is 2,
constructed at time 0 with zero cool time. -/
def backwardStampEstimator : PoseEstimator :=
  { poseEstimatorInit 0 zeroVec3 unitQuatW 0 with prevStamp := 2 }

/-- The previous stamp recorded by `predict` is always the incoming stamp. -/
theorem predict_prevStamp (f : (Fin 16 → ℚ) → (Fin 6 → ℚ) → ℚ → Fin 16 → ℚ)
    (e : PoseEstimator) (s : ℚ) (a g : Fin 3 → ℚ) :
    (predict f e s a g).prevStamp = s := by
  unfold predict
  split <;> rfl

/-- When the incoming stamp equals the recorded previous stamp, `predict`
only performs the stamp bookkeeping. -/
theorem predict_of_prevStamp_eq (f : (Fin 16 → ℚ) → (Fin 6 → ℚ) → ℚ → Fin 16 → ℚ)
    (e : PoseEstimator) (s : ℚ) (a g : Fin 3 → ℚ) (h : e.prevStamp = s) :
    predict f e s a g = { e with prevStamp := s } := by
  unfold predict
  rw [if_pos (Or.inr (Or.inr h))]

/-- C2 counterexample: at a concrete state with recorded previous stamp 2
(outside the cool-time window), a `predict` call at the strictly smaller
stamp 1 is not absorbed: the inertial covariance changes. -/
theorem predict_nonmonotonic_counterexample :
    (1 : ℚ) < backwardStampEstimator.prevStamp ∧
    (predict idMotion16 backwardStampEstimator 1 zeroVec3 zeroVec3).ukf.cov 0 0
      ≠ backwardStampEstimator.ukf.cov 0 0 := by
  have hguard : ¬ ((1:ℚ) - backwardStampEstimator.initStamp < backwardStampEstimator.coolTimeDuration
      ∨ backwardStampEstimator.prevStamp = 0 ∨ backwardStampEstimator.prevStamp = (1:ℚ)) := by
    norm_num [backwardStampEstimator, poseEstimatorInit]
  constructor
  · norm_num [backwardStampEstimator, poseEstimatorInit]
  · unfold predict
    rw [if_neg hguard]
    simp only [ukfPredict, Matrix.add_apply, Matrix.smul_apply, backwardStampEstimator,
      poseEstimatorInit, inertialProcessNoise, Matrix.of_apply, Matrix.one_apply,
      smul_eq_mul]
    norm_num

/-- C2 (amended): a `predict` call whose timestamp equals the recorded
previous one leaves the inertial filter untouched and only updates the
stamp; but a timestamp strictly smaller than the previous one, outside the
cool-time window, is not absorbed: the inertial filter predicts with a
negative elapsed time `dt = stamp - prev`. -/
theorem predict_nonincreasing_stamp (f : (Fin 16 → ℚ) → (Fin 6 → ℚ) → ℚ → Fin 16 → ℚ)
    (e : PoseEstimator) (s : ℚ) (a g : Fin 3 → ℚ) :
    (e.prevStamp = s → predict f e s a g = { e with prevStamp := s }) ∧
    (e.prevStamp ≠ 0 → s < e.prevStamp → ¬ s - e.initStamp < e.coolTimeDuration →
      (predict f e s a g = { e with
          prevStamp := s
          ukf := ukfPredict (fun st c => f st c (s - e.prevStamp))
            { e.ukf with processNoise := (s - e.prevStamp) • e.processNoise }
            (imuControl a g) } ∧ s - e.prevStamp < 0)) := by
  constructor
  · intro h
    exact predict_of_prevStamp_eq f e s a g h
  · intro h0 hlt hcool
    refine ⟨?_, by linarith⟩
    unfold predict
    rw [if_neg (by simp only [not_or]; exact ⟨hcool, h0, ne_of_gt hlt⟩)]

/-- Witness for the amended C2 at concrete states: an equal-stamp call at
stamp 2 is pure bookkeeping, and a backwards call at stamp 1 predicts with
negative dt. -/
theorem predict_nonincreasing_stamp_witness :
    (predict idMotion16 backwardStampEstimator 2 zeroVec3 zeroVec3
      = { backwardStampEstimator with prevStamp := 2 }) ∧
    ((predict idMotion16 backwardStampEstimator 1 zeroVec3 zeroVec3
        = { backwardStampEstimator with
            prevStamp := 1
            ukf := ukfPredict
              (fun st c => idMotion16 st c (1 - backwardStampEstimator.prevStamp))
              { backwardStampEstimator.ukf with
                  processNoise :=
                    (1 - backwardStampEstimator.prevStamp) • backwardStampEstimator.processNoise }
              (imuControl zeroVec3 zeroVec3) })
      ∧ (1 - backwardStampEstimator.prevStamp < 0)) :=
  ⟨(predict_nonincreasing_stamp idMotion16 backwardStampEstimator 2 zeroVec3 zeroVec3).1 rfl,
   (predict_nonincreasing_stamp idMotion16 backwardStampEstimator 1 zeroVec3 zeroVec3).2
     (by norm_num [backwardStampEstimator, poseEstimatorInit])
     (by norm_num [backwardStampEstimator, poseEstimatorInit])
     (by norm_num [backwardStampEstimator, poseEstimatorInit])⟩

/-- C3: `predict` is pure stamp bookkeeping within the cool-time window and
on the very first call (zero recorded stamp); after the cool-time window,
with a recorded strictly smaller previous stamp, it computes `dt` as the
elapsed time since the last call, scales the base process-noise matrix by
`dt`, and invokes the inertial prediction with the 6-dimensional
(acceleration, angular velocity) control. -/
theorem predict_cooltime_gating (f : (Fin 16 → ℚ) → (Fin 6 → ℚ) → ℚ → Fin 16 → ℚ)
    (e : PoseEstimator) (s : ℚ) (a g : Fin 3 → ℚ) :
    (s - e.initStamp < e.coolTimeDuration → predict f e s a g = { e with prevStamp := s }) ∧
    (e.prevStamp = 0 → predict f e s a g = { e with prevStamp := s }) ∧
    (¬ s - e.initStamp < e.coolTimeDuration → e.prevStamp ≠ 0 → e.prevStamp < s →
      predict f e s a g = { e with
        prevStamp := s
        ukf := ukfPredict (fun st c => f st c (s - e.prevStamp))
          { e.ukf with processNoise := (s - e.prevStamp) • e.processNoise }
          (imuControl a g) }) := by
  refine ⟨?_, ?_, ?_⟩
  · intro h
    unfold predict
    rw [if_pos (Or.inl h)]
  · intro h
    unfold predict
    rw [if_pos (Or.inr (Or.inl h))]
  · intro hcool h0 hlt
    unfold predict
    rw [if_neg (by simp only [not_or]; exact ⟨hcool, h0, ne_of_lt hlt⟩)]

/-- Concrete estimator with cool-time duration 1, constructed at time 0, for
the cool-time gating witness (the spec scenario of §8). -/
def coolTimeEstimator : PoseEstimator := poseEstimatorInit 0 zeroVec3 unitQuatW 1

/-- Witness for C3 at the spec scenario: calls at stamps 0.1 and 0.5 are
absorbed; a call at stamp 1.5 with recorded previous stamp 0.5 runs the
inertial prediction with dt = 1. -/
theorem predict_cooltime_gating_witness :
    (predict idMotion16 coolTimeEstimator (1/10) zeroVec3 zeroVec3
      = { coolTimeEstimator with prevStamp := 1/10 }) ∧
    (predict idMotion16 coolTimeEstimator (1/2) zeroVec3 zeroVec3
      = { coolTimeEstimator with prevStamp := 1/2 }) ∧
    (predict idMotion16 { coolTimeEstimator with prevStamp := 1/2 } (3/2) zeroVec3 zeroVec3
      = { coolTimeEstimator with
          prevStamp := 3/2
          ukf := ukfPredict
            (fun st c => idMotion16 st c ((3:ℚ)/2 - (1:ℚ)/2))
            { coolTimeEstimator.ukf with
                processNoise := ((3:ℚ)/2 - (1:ℚ)/2) • coolTimeEstimator.processNoise }
            (imuControl zeroVec3 zeroVec3) }) :=
  ⟨(predict_cooltime_gating idMotion16 coolTimeEstimator (1/10) zeroVec3 zeroVec3).1
      (by norm_num [coolTimeEstimator, poseEstimatorInit]),
   (predict_cooltime_gating idMotion16 coolTimeEstimator (1/2) zeroVec3 zeroVec3).2.1 rfl,
   (predict_cooltime_gating idMotion16 { coolTimeEstimator with prevStamp := 1/2 } (3/2)
      zeroVec3 zeroVec3).2.2
     (by norm_num [coolTimeEstimator, poseEstimatorInit])
     (by norm_num [coolTimeEstimator, poseEstimatorInit])
     (by norm_num [coolTimeEstimator, poseEstimatorInit])⟩

/-- C8: calling `predict` twice in succession with an identical timestamp
(and any control inputs on the second call) gives exactly the state of a
single call: the second call is absorbed entirely, the stamp bookkeeping
included. -/
theorem predict_idempotent_same_stamp (f : (Fin 16 → ℚ) → (Fin 6 → ℚ) → ℚ → Fin 16 → ℚ)
    (e : PoseEstimator) (s : ℚ) (a g a2 g2 : Fin 3 → ℚ) :
    predict f (predict f e s a g) s a2 g2 = predict f e s a g := by
  set p := predict f e s a g with hp
  have h : p.prevStamp = s := predict_prevStamp f e s a g
  rw [predict_of_prevStamp_eq f p s a2 g2 h, ← h]

/-- The quaternion coefficient dot product is symmetric. -/
theorem dot4_comm (a b : Fin 4 → ℚ) : dot4 a b = dot4 b a := by
  unfold dot4
  exact Finset.sum_congr rfl fun i _ => mul_comm _ _

/-- Negating one argument negates the quaternion coefficient dot product. -/
theorem dot4_neg_left (a b : Fin 4 → ℚ) : dot4 (fun i => - a i) b = - dot4 a b := by
  unfold dot4
  rw [← Finset.sum_neg_distrib]
  exact Finset.sum_congr rfl fun i _ => neg_mul _ _

/-- C4: in `correct`, the observed quaternion is negated exactly when its
coefficient dot product with the current normalised inertial orientation is
negative, so the quaternion placed in the 7-dimensional observation always
has a non-negative dot product with the pre-correction orientation. -/
theorem correct_quaternion_sign_flip (nrm : (Fin 4 → ℚ) → ℚ) (e : PoseEstimator)
    (p : Fin 3 → ℚ) (q : Fin 4 → ℚ) :
    (flipToMatch (quatAcc nrm e) q
      = if dot4 (quatAcc nrm e) q < 0 then (fun i => - q i) else q) ∧
    0 ≤ dot4 (flipToMatch (quatAcc nrm e) q) (quatAcc nrm e) ∧
    scanObservation nrm e p q = (fun i =>
      if h : i.1 < 3 then p ⟨i.1, h⟩
      else flipToMatch (quatAcc nrm e) q ⟨i.1 - 3, by omega⟩) := by
  refine ⟨rfl, ?_, rfl⟩
  unfold flipToMatch
  by_cases h : dot4 (quatAcc nrm e) q < 0
  · rw [if_pos h, dot4_neg_left, dot4_comm]
    linarith
  · rw [if_neg h, dot4_comm]
    linarith [not_lt.mp h]

/-- Normalisation yields a unit-sum-of-squares vector whenever the abstract
norm function satisfies its defining property and is nonzero. -/
theorem normalize4_unit (nrm : (Fin 4 → ℚ) → ℚ) (v : Fin 4 → ℚ)
    (h1 : nrm v ^ 2 = ∑ i, v i ^ 2) (h2 : nrm v ≠ 0) :
    ∑ i, normalize4 nrm v i ^ 2 = 1 := by
  unfold normalize4
  have hdiv : ∑ i, (v i / nrm v) ^ 2 = (∑ i, v i ^ 2) / nrm v ^ 2 := by
    rw [Finset.sum_div]
    exact Finset.sum_congr rfl fun i _ => div_pow _ _ _
  rw [hdiv, ← h1, div_self (pow_ne_zero 2 h2)]

/-- C7: `quat` returns the normalised quaternion extracted from inertial
state components 6-9 and has unit norm (unit sum of squared coefficients)
whenever the norm function satisfies its defining property and the raw
quaternion block has nonzero norm; likewise `odom_quat` on an active
odometry filter, whose quaternion is extracted from odometry state
components 3-6. -/
theorem quat_accessors_normalized (nrm : (Fin 4 → ℚ) → ℚ) (e : PoseEstimator)
    (u : UKF 7 7)
    (h1 : nrm (rawQuat e) ^ 2 = ∑ i, rawQuat e i ^ 2) (h2 : nrm (rawQuat e) ≠ 0)
    (h3 : nrm (ukfOdomRawQuat u) ^ 2 = ∑ i, ukfOdomRawQuat u i ^ 2)
    (h4 : nrm (ukfOdomRawQuat u) ≠ 0) :
    (∑ i, quatAcc nrm e i ^ 2 = 1) ∧
    (odomQuatAcc nrm { e with odomUkf := some u }
      = some (normalize4 nrm (ukfOdomRawQuat u))) ∧
    (∑ i, normalize4 nrm (ukfOdomRawQuat u) i ^ 2 = 1) :=
  ⟨normalize4_unit nrm (rawQuat e) h1 h2, rfl,
   normalize4_unit nrm (ukfOdomRawQuat u) h3 h4⟩

/-- Constant norm function with value 5, for the normalisation witness. -/
def normFive : (Fin 4 → ℚ) → ℚ := fun _ => 5

/-- Concrete estimator whose raw inertial quaternion block (components 6-9)
is (0,3,4,0), of norm 5. -/
def pythagEstimator : PoseEstimator :=
  { poseEstimatorInit 0 zeroVec3 unitQuatW 1 with
      ukf :=
        { mean := fun i => if i.1 = 7 then 3 else if i.1 = 8 then 4 else 0
          cov := (1/100 : ℚ) • 1
          processNoise := inertialProcessNoise
          measurementNoise := inertialMeasurementNoise } }

/-- Concrete odometry filter whose raw quaternion block (components 3-6) is
(0,3,4,0), of norm 5. -/
def pythagOdomFilter : UKF 7 7 :=
  { mean := fun i => if i.1 = 4 then 3 else if i.1 = 5 then 4 else 0
    cov := (1/100 : ℚ) • 1
    processNoise := 1
    measurementNoise := (1/1000 : ℚ) • 1 }

/-- Witness for C7 at the concrete states with quaternion blocks (0,3,4,0)
and norm 5. -/
theorem quat_accessors_normalized_witness :
    (∑ i, quatAcc normFive pythagEstimator i ^ 2 = 1) ∧
    (odomQuatAcc normFive { pythagEstimator with odomUkf := some pythagOdomFilter }
      = some (normalize4 normFive (ukfOdomRawQuat pythagOdomFilter))) ∧
    (∑ i, normalize4 normFive (ukfOdomRawQuat pythagOdomFilter) i ^ 2 = 1) :=
  quat_accessors_normalized normFive pythagEstimator pythagOdomFilter
    (by norm_num [normFive, rawQuat, pythagEstimator, Fin.sum_univ_four]; decide)
    (by norm_num [normFive])
    (by norm_num [normFive, ukfOdomRawQuat, pythagOdomFilter, Fin.sum_univ_four]; decide)
    (by norm_num [normFive])

/-- C9: the odometry accessors are defined exactly when the odometry filter
exists, and on a freshly constructed estimator (no `predict_odom` call yet)
all three are undefined. -/
theorem odom_accessors_require_filter (nrm : (Fin 4 → ℚ) → ℚ) (e : PoseEstimator)
    (stamp ct : ℚ) (p : Fin 3 → ℚ) (q : Fin 4 → ℚ) :
    ((odomPosAcc e).isSome ↔ e.odomUkf.isSome) ∧
    ((odomQuatAcc nrm e).isSome ↔ e.odomUkf.isSome) ∧
    ((odomMatrixAcc nrm e).isSome ↔ e.odomUkf.isSome) ∧
    odomPosAcc (poseEstimatorInit stamp p q ct) = none ∧
    odomQuatAcc nrm (poseEstimatorInit stamp p q ct) = none ∧
    odomMatrixAcc nrm (poseEstimatorInit stamp p q ct) = none := by
  refine ⟨?_, ?_, ?_, rfl, rfl, rfl⟩ <;>
    simp [odomPosAcc, odomQuatAcc, odomMatrixAcc]

/-- C5: on a `predict_odom` call with no odometry filter yet, the filter is
created with mean seeded from the inertial mean (components 0-2 for
position, 6-9 for orientation) and covariance 0.01 times the identity, then
immediately predicted; when the filter already exists, that same filter is
predicted from its own state and no fresh filter is created or re-seeded. -/
theorem predict_odom_seeding (g : (Fin 7 → ℚ) → (Fin 7 → ℚ) → Fin 7 → ℚ)
    (quatOfRot : Matrix (Fin 3) (Fin 3) ℚ → Fin 4 → ℚ) (vecNorm : (Fin 3 → ℚ) → ℚ)
    (e : PoseEstimator) (d : Matrix (Fin 4) (Fin 4) ℚ) (u : UKF 7 7) :
    (e.odomUkf = none → (predictOdom g quatOfRot vecNorm e d).odomUkf
      = some (ukfPredict g
          { odomInitialFilter e.ukf.mean with
              processNoise :=
                odomProcessNoise (vecNorm (transBlock d)) (quatOfRot (rotBlock d) 0) }
          (odomControl (quatOfRot (rotBlock d)) (transBlock d)))) ∧
    ((odomInitialFilter e.ukf.mean).cov = (1/100 : ℚ) • 1) ∧
    (∀ i : Fin 3, (odomInitialFilter e.ukf.mean).mean ⟨i.1, by omega⟩
      = e.ukf.mean ⟨i.1, by omega⟩) ∧
    (∀ i : Fin 4, (odomInitialFilter e.ukf.mean).mean ⟨i.1 + 3, by omega⟩
      = e.ukf.mean ⟨i.1 + 6, by omega⟩) ∧
    (e.odomUkf = some u → (predictOdom g quatOfRot vecNorm e d).odomUkf
      = some (ukfPredict g
          { u with
              processNoise :=
                odomProcessNoise (vecNorm (transBlock d)) (quatOfRot (rotBlock d) 0) }
          (odomControl (quatOfRot (rotBlock d)) (transBlock d)))) := by
  refine ⟨?_, rfl, ?_, ?_, ?_⟩
  · intro h
    unfold predictOdom
    rw [h]
  · intro i
    simp [odomInitialFilter, odomSeed, i.isLt]
  · intro i
    have h3 : ¬ (i.1 + 3 < 3) := by omega
    simp only [odomInitialFilter, odomSeed, h3, dite_false]
  · intro h
    unfold predictOdom
    rw [h]

/-- Concrete odometry motion model used by witnesses: the state is left
unchanged. -/
def idMotion7 : (Fin 7 → ℚ) → (Fin 7 → ℚ) → Fin 7 → ℚ := fun st _ => st

/-- Concrete rotation-to-quaternion conversion used by witnesses: always the
identity quaternion. -/
def wOnlyQuatOfRot : Matrix (Fin 3) (Fin 3) ℚ → Fin 4 → ℚ := fun _ => unitQuatW

/-- Concrete norm function used by witnesses: always zero. -/
def zeroNorm : (Fin 3 → ℚ) → ℚ := fun _ => 0

/-- Concrete estimator whose odometry filter is already active, used by the
seeding witness. -/
def seededEstimator : PoseEstimator :=
  { poseEstimatorInit 0 zeroVec3 unitQuatW 1 with
      odomUkf := some pythagOdomFilter }

/-- Witness for C5: the first `predict_odom` on a fresh estimator creates
and predicts the seeded filter; on an estimator with an active filter it
predicts that filter. -/
theorem predict_odom_seeding_witness :
    ((predictOdom idMotion7 wOnlyQuatOfRot zeroNorm
        (poseEstimatorInit 0 zeroVec3 unitQuatW 1) 1).odomUkf
      = some (ukfPredict idMotion7
          { odomInitialFilter (poseEstimatorInit 0 zeroVec3 unitQuatW 1).ukf.mean with
              processNoise :=
                odomProcessNoise (zeroNorm (transBlock 1)) (wOnlyQuatOfRot (rotBlock 1) 0) }
          (odomControl (wOnlyQuatOfRot (rotBlock 1)) (transBlock 1)))) ∧
    ((predictOdom idMotion7 wOnlyQuatOfRot zeroNorm seededEstimator 1).odomUkf
      = some (ukfPredict idMotion7
          { pythagOdomFilter with
              processNoise :=
                odomProcessNoise (zeroNorm (transBlock 1)) (wOnlyQuatOfRot (rotBlock 1) 0) }
          (odomControl (wOnlyQuatOfRot (rotBlock 1)) (transBlock 1)))) :=
  ⟨(predict_odom_seeding idMotion7 wOnlyQuatOfRot zeroNorm
      (poseEstimatorInit 0 zeroVec3 unitQuatW 1) 1 pythagOdomFilter).1 rfl,
   (predict_odom_seeding idMotion7 wOnlyQuatOfRot zeroNorm
      seededEstimator 1 pythagOdomFilter).2.2.2.2 rfl⟩

/-- C6: the process noise handed to the odometry filter by `predict_odom`
is the adaptive matrix built from the relative translation and rotation of
the delta transform, and that matrix is block diagonal: diagonal entries
`norm(t) + 1e-3` on the translational block and `(1 - |w|) + 1e-3` on the
rotational block, zero off the diagonal. -/
theorem predict_odom_adaptive_noise (g : (Fin 7 → ℚ) → (Fin 7 → ℚ) → Fin 7 → ℚ)
    (quatOfRot : Matrix (Fin 3) (Fin 3) ℚ → Fin 4 → ℚ) (vecNorm : (Fin 3 → ℚ) → ℚ)
    (e : PoseEstimator) (d : Matrix (Fin 4) (Fin 4) ℚ) :
    (((predictOdom g quatOfRot vecNorm e d).odomUkf).map (fun u => u.processNoise)
      = some (odomProcessNoise (vecNorm (transBlock d)) (quatOfRot (rotBlock d) 0))) ∧
    (∀ tn w : ℚ, ∀ i j : Fin 7, odomProcessNoise tn w i j
      = if i = j then (if i.1 < 3 then tn + 1/1000 else (1 - |w|) + 1/1000) else 0) := by
  constructor
  · cases h : e.odomUkf <;> simp [predictOdom, h, ukfPredict]
  · intro tn w i j
    unfold odomProcessNoise
    rw [Matrix.of_apply]
    by_cases hi : i.1 < 3
    · by_cases hj : j.1 < 3
      · rw [dif_pos ⟨hi, hj⟩]
        simp only [Matrix.add_apply, Matrix.smul_apply, Matrix.one_apply, smul_eq_mul,
          mul_ite, mul_one, mul_zero]
        by_cases hij : i = j
        · subst hij
          simp [hi]
        · have hmk : (⟨i.1, hi⟩ : Fin 3) ≠ ⟨j.1, hj⟩ := by
            intro hc
            have hv : i.1 = j.1 := congrArg (fun x : Fin 3 => x.1) hc
            exact hij (Fin.ext hv)
          simp [hmk, hij]
      · rw [dif_neg (by omega), dif_neg (by omega)]
        have hij : i ≠ j := by
          intro hc
          exact hj (hc ▸ hi)
        simp [Matrix.one_apply, hij, Fin.ext_iff]
    · by_cases hj : j.1 < 3
      · rw [dif_neg (by omega), dif_neg (by omega)]
        have hij : i ≠ j := by
          intro hc
          exact hi (hc ▸ hj)
        simp [Matrix.one_apply, hij, Fin.ext_iff]
      · rw [dif_neg (by omega), dif_pos ⟨by omega, by omega⟩]
        simp only [Matrix.add_apply, Matrix.smul_apply, Matrix.one_apply, smul_eq_mul,
          mul_ite, mul_one, mul_zero]
        by_cases hij : i = j
        · subst hij
          simp [hi]
        · have hmk : (⟨i.1 - 3, by omega⟩ : Fin 4) ≠ ⟨j.1 - 3, by omega⟩ := by
            intro hc
            have := congrArg Fin.val hc
            simp only at this
            exact hij (Fin.ext (by omega))
          simp [hmk, hij]

/-- C10: the two prediction channels do not interfere: `predict` neither
reads nor writes the odometry filter (its result commutes with replacing
that filter), and `predict_odom` leaves the inertial filter, every
timestamp, and the base process-noise matrix untouched, reading the
inertial state only through its mean and only for the initial seeding. -/
theorem prediction_channels_noninterference
    (f : (Fin 16 → ℚ) → (Fin 6 → ℚ) → ℚ → Fin 16 → ℚ)
    (g : (Fin 7 → ℚ) → (Fin 7 → ℚ) → Fin 7 → ℚ)
    (quatOfRot : Matrix (Fin 3) (Fin 3) ℚ → Fin 4 → ℚ) (vecNorm : (Fin 3 → ℚ) → ℚ)
    (e : PoseEstimator) (s : ℚ) (a gy : Fin 3 → ℚ) (d : Matrix (Fin 4) (Fin 4) ℚ) :
    ((predict f e s a gy).odomUkf = e.odomUkf) ∧
    (∀ o1 o2 : Option (UKF 7 7),
      predict f { e with odomUkf := o1 } s a gy
        = { predict f { e with odomUkf := o2 } s a gy with odomUkf := o1 }) ∧
    ((predictOdom g quatOfRot vecNorm e d).ukf = e.ukf) ∧
    ((predictOdom g quatOfRot vecNorm e d).prevStamp = e.prevStamp) ∧
    ((predictOdom g quatOfRot vecNorm e d).initStamp = e.initStamp) ∧
    ((predictOdom g quatOfRot vecNorm e d).lastCorrectionStamp = e.lastCorrectionStamp) ∧
    ((predictOdom g quatOfRot vecNorm e d).processNoise = e.processNoise) ∧
    (∀ u1 u2 : UKF 16 7, u1.mean = u2.mean →
      (predictOdom g quatOfRot vecNorm { e with ukf := u1 } d).odomUkf
        = (predictOdom g quatOfRot vecNorm { e with ukf := u2 } d).odomUkf) := by
  refine ⟨?_, ?_, rfl, rfl, rfl, rfl, rfl, ?_⟩
  · unfold predict
    split <;> rfl
  · intro o1 o2
    simp only [predict]
    by_cases h : s - e.initStamp < e.coolTimeDuration ∨ e.prevStamp = 0 ∨ e.prevStamp = s
    · rw [if_pos h, if_pos h]
    · rw [if_neg h, if_neg h]
  · intro u1 u2 hm
    cases h : e.odomUkf <;> simp [predictOdom, h, hm]

/-- Inertial filter used by the non-interference witness. -/
def meanTwinA : UKF 16 7 :=
  { mean := initialMean zeroVec3 unitQuatW
    cov := (1/100 : ℚ) • 1
    processNoise := inertialProcessNoise
    measurementNoise := inertialMeasurementNoise }

/-- Inertial filter with the same mean as `meanTwinA` but a different
covariance, for the non-interference witness. -/
def meanTwinB : UKF 16 7 :=
  { meanTwinA with cov := 1 }

/-- Witness for C10: the odometry filter produced by `predict_odom` is the
same for two inertial filters that agree on the mean alone. -/
theorem prediction_channels_noninterference_witness :
    (predictOdom idMotion7 wOnlyQuatOfRot zeroNorm
        { poseEstimatorInit 0 zeroVec3 unitQuatW 1 with ukf := meanTwinA } 1).odomUkf
      = (predictOdom idMotion7 wOnlyQuatOfRot zeroNorm
        { poseEstimatorInit 0 zeroVec3 unitQuatW 1 with ukf := meanTwinB } 1).odomUkf :=
  (prediction_channels_noninterference idMotion16 idMotion7 wOnlyQuatOfRot zeroNorm
    (poseEstimatorInit 0 zeroVec3 unitQuatW 1) 0 zeroVec3 zeroVec3 1).2.2.2.2.2.2.2
    meanTwinA meanTwinB rfl

end HdlLocalization
